import Mathlib

/-!
Shallow embedding of the transcript-analysis core of the repository
(src/analyzer/lib/analyzer.ts, src/analyzer/lib/ai-analyzer.ts, and the
analysis API route).  Pure functions of the source become Lean functions;
the remote provider, the JSON parser of the host platform and the clock
are explicit inputs.  JS numbers on the scoring paths are modelled as
Nat/Int with exact arithmetic.
-/

namespace Analyzer

/-- Brace characters, named to keep literals out of strings. -/
def lbrace : Char := Char.ofNat 123

def rbrace : Char := Char.ofNat 125

/-- `SentimentAnalysis` record from lib/types.ts. -/
structure SentimentAnalysis where
  score : Int
  label : String
  summary : String
deriving DecidableEq, Repr

/-- `AnalysisResult` record from lib/types.ts (optional fields that no
claim touches are omitted). -/
structure AnalysisResult where
  managementSentiment : SentimentAnalysis
  keyThemes : List String
  overallTone : String
deriving DecidableEq, Repr

/-- JS `String.prototype.includes`: substring containment. -/
def hasSub (hay pat : List Char) : Bool :=
  match hay with
  | [] => pat.isEmpty
  | _ :: rest => pat.isPrefixOf hay || hasSub rest pat

/-- JS `String.prototype.toLowerCase` restricted to the ASCII texts the
analyzer handles, as a character list. -/
def lowerStr (s : String) : List Char := s.data.map Char.toLower

/-- A regex word character as used by the `\b` boundary: `[A-Za-z0-9_]`. -/
def isWordChar (c : Char) : Bool := c.isAlphanum || c = '_'

/-- Accumulating tokenizer: splits a character list into its maximal runs
of word characters. -/
def tokGo : List Char → List Char → List (List Char)
  | [], acc => if acc.isEmpty then [] else [acc.reverse]
  | c :: cs, acc =>
    if isWordChar c then tokGo cs (c :: acc)
    else if acc.isEmpty then tokGo cs [] else acc.reverse :: tokGo cs []

/-- Maximal word-character runs of a text. -/
def wordTokens (cs : List Char) : List (List Char) := tokGo cs []

/-- Number of whole-word matches of `w` in `text`: the number of maximal
word-character runs equal to `w` (the words of the fixed lists are pure
ASCII letters, so this is exactly what `text.match(new RegExp(b + w + b, "gi"))`
counts on the lowercased text). -/
def countOccur (text : List Char) (w : List Char) : Nat :=
  (wordTokens text).count w

/-- Sum of whole-word match counts over a word list
(the two `forEach` accumulation loops in analyzer.ts). -/
def sentimentCount (text : List Char) (ws : List String) : Nat :=
  (ws.map (fun w => countOccur text w.data)).sum

/-- Positive keyword list of analyzer.ts. -/
def positiveWords : List String :=
  [("growth"), ("strong"), ("record"), ("exceeded"), ("positive"), ("momentum"),
   ("accelerate"), ("breakthrough"), ("innovation"), ("excellent"), ("robust"),
   ("outperform"), ("surge"), ("expand"), ("increase"), ("improve"), ("gain")]

/-- Negative keyword list of analyzer.ts. -/
def negativeWords : List String :=
  [("decline"), ("challenge"), ("concern"), ("weak"), ("difficult"), ("uncertainty"),
   ("risk"), ("pressure"), ("decrease"), ("slow"), ("issue"), ("problem"), ("loss"),
   ("below"), ("miss"), ("disappoint"), ("struggle"), ("threat")]

/-- `Math.round(100 * p / (p + n))` computed exactly over the rationals:
round-half-up of `100 p / (p + n)`, namely `floor((200 p + (p+n)) / (2 (p+n)))`. -/
def roundPct (p n : Nat) : Nat := (200 * p + (p + n)) / (2 * (p + n))

/-- The two hard-coded strong-positive phrases of analyzer.ts. -/
def hasBonusPhrase (text : List Char) : Bool :=
  hasSub text (String.data ("record revenue")) ||
  hasSub text (String.data ("exceeded expectations"))

/-- Sentiment score before the phrase bonus: 50 when no sentiment word
matches, otherwise the rounded positive percentage. -/
def localBase (text : List Char) : Nat :=
  let p := sentimentCount text positiveWords
  let n := sentimentCount text negativeWords
  if p + n = 0 then 50 else roundPct p n

/-- Final LocalScorer sentiment score: phrase bonus of 10 capped at 100. -/
def localScoreOf (text : List Char) : Nat :=
  if hasBonusPhrase text then min 100 (localBase text + 10) else localBase text

/-- Label thresholds of analyzer.ts (65 / 35). -/
def labelFor (sc : Int) : String :=
  if 65 ≤ sc then ("positive") else if 35 ≤ sc then ("neutral") else ("negative")

/-- Tone thresholds of analyzer.ts (70 / 30). -/
def toneFor (sc : Int) : String :=
  if 70 ≤ sc then ("confident") else if sc ≤ 30 then ("cautious") else ("mixed")

/-- Fixed theme table of analyzer.ts: category name and trigger substrings,
in source order. -/
def themeTable : List (String × List String) :=
  [(("AI/ML Growth"), [("ai"), ("artificial intelligence"), ("machine learning"), ("neural")]),
   (("Data Center Expansion"), [("data center"), ("datacenter"), ("cloud"), ("hgx"), ("dgx")]),
   (("Gaming Revenue"), [("gaming"), ("geforce"), ("rtx"), ("game")]),
   (("Supply Chain Management"), [("supply"), ("inventory"), ("manufacturing"), ("production")]),
   (("Automotive Innovation"), [("automotive"), ("self-driving"), ("autonomous")]),
   (("Strategic Partnerships"), [("partner"), ("collaboration"), ("customer")])]

/-- Default theme emitted when no category matches. -/
def defaultTheme : String := "General Business Performance"

/-- Theme detection: categories whose any trigger substring occurs in the
text, in table order; the default theme when none matches. -/
def detectThemes (text : List Char) : List String :=
  let ts := (themeTable.filter (fun row => row.2.any (fun k => hasSub text k.data))).map Prod.fst
  if ts.isEmpty then [defaultTheme] else ts

/-- `analyzeTranscript` of analyzer.ts.  The body of the source cannot
throw, so its catch-all branch returning null is unreachable and the model
is total; the artificial 800 ms pause has no effect on the value. -/
def analyzeTranscript (transcriptText : String) : AnalysisResult :=
  let text := lowerStr transcriptText
  let score := localScoreOf text
  let topThemes := (detectThemes text).take 5
  { managementSentiment :=
      { score := (score : Int),
        label := labelFor (score : Int),
        summary := ("Management expressed ") ++ labelFor (score : Int) ++
          (" sentiment with emphasis on ") ++ topThemes.headD ("") },
    keyThemes := topThemes,
    overallTone := toneFor (score : Int) }

/-- Confident-phrase list of `analyzeQASection`. -/
def confidentWords : List String :=
  [("absolutely"), ("definitely"), ("certainly"), ("clearly"), ("obviously")]

/-- Defensive-phrase list of `analyzeQASection`. -/
def defensiveWords : List String :=
  [("however"), ("but"), ("although"), ("despite"), ("challenging")]

/-- Unclamped Q&A score: baseline 50, +5 per confident phrase present,
−5 per defensive phrase present (presence via substring, once per phrase,
exactly as the two `forEach` / `includes` loops of the source). -/
def qaRaw (text : List Char) : Int :=
  50 + 5 * ((confidentWords.filter (fun w => hasSub text w.data)).length : Int)
     - 5 * ((defensiveWords.filter (fun w => hasSub text w.data)).length : Int)

/-- `analyzeQASection` of analyzer.ts. -/
def analyzeQASection (qaText : String) : SentimentAnalysis :=
  let text := lowerStr qaText
  let score := max 0 (min 100 (qaRaw text))
  { score := score,
    label := labelFor score,
    summary := ("Q&A session analysis based on response patterns") }

/-! ## RateLimiter (ai-analyzer.ts)

State is the `requests` timestamp list; the clock is an explicit input.
`waitIfNeeded` filters out aged entries at the arrival time, computes the
release time (the arrival itself, or `oldest + timeWindow` when the window
is full), and pushes the arrival timestamp — exactly as the source, which
pushes `now` captured before the wait. -/

def timeWindow : Nat := 60000

def maxRequests : Nat := 15

/-- `now - time < this.timeWindow`: is `e` inside the trailing window
ending at `t`? -/
def inWindow (t e : Nat) : Bool := t - e < timeWindow

/-- Release time of a call arriving at `now` against the retained list
`kept`: wait until `oldest + timeWindow` when the window is full. -/
def waitRelease (kept : List Nat) (now : Nat) : Nat :=
  if maxRequests ≤ kept.length then
    match kept with
    | [] => now
    | oldest :: _ => max now (oldest + timeWindow)
  else now

/-- One `waitIfNeeded` call: returns the caller release time and the new
`requests` list. -/
def waitIfNeeded (requests : List Nat) (now : Nat) : Nat × List Nat :=
  (waitRelease (requests.filter (fun e => inWindow now e)) now,
   requests.filter (fun e => inWindow now e) ++ [now])

/-- Number of recorded timestamps inside the trailing window ending at `t`. -/
def countWindow (st : List Nat) (t : Nat) : Nat :=
  (st.filter (fun e => inWindow t e)).length

/-- Trace of sequential `waitIfNeeded` calls: the (release, state-after)
pair of every call, in order. -/
def rlTrace (st : List Nat) : List Nat → List (Nat × List Nat)
  | [] => []
  | now :: rest => waitIfNeeded st now :: rlTrace (waitIfNeeded st now).2 rest

/-- A schedule of arrival times is sequential when every call arrives no
earlier than the previous caller was released (the source awaits each call
before issuing the next). -/
def validSeqB : List Nat → Nat → List Nat → Bool
  | _, _, [] => true
  | st, lastRel, now :: rest =>
    decide (lastRel ≤ now) && validSeqB (waitIfNeeded st now).2 (waitIfNeeded st now).1 rest

/-! ## RemoteScorer (ai-analyzer.ts)

The provider, the platform JSON parser and the network are outside the
repository; they enter the model as explicit inputs.  The prompt build and
the 100000-character truncation only shape the outbound request and do not
affect the returned value. -/

/-- A provider HTTP reply: status code and the optional
`candidates[0].content.parts[0].text` field. -/
structure ProviderReply where
  status : Nat
  text? : Option String
deriving DecidableEq, Repr

/-- Outcome of the network call: a reply, or a thrown network error. -/
inductive NetResult where
  | reply : ProviderReply → NetResult
  | netErr : String → NetResult
deriving DecidableEq, Repr

/-- `response.ok`: success statuses 200–299. -/
def respOk (s : Nat) : Bool := decide (200 ≤ s) && decide (s < 300)

/-- What the source reads out of `JSON.parse` of the extracted substring:
the fields it dereferences.  `none` models a parse failure or a missing
`managementSentiment` (whose dereference throws and is caught);
`keyThemes := none` models a non-array `keyThemes`. -/
structure ParsedAnalysis where
  score : Int
  label : String
  summary : String
  keyThemes : Option (List String)
  overallTone : String
deriving DecidableEq, Repr

/-- Index of the first occurrence of `c`. -/
def firstIdxOf (c : Char) : List Char → Option Nat
  | [] => none
  | x :: xs => if x = c then some 0 else (firstIdxOf c xs).map (· + 1)

/-- Index of the last occurrence of `c`. -/
def lastIdxOf (c : Char) : List Char → Option Nat
  | [] => none
  | x :: xs =>
    match lastIdxOf c xs with
    | some j => some (j + 1)
    | none => if x = c then some 0 else none

/-- The greedy regex of the source (`resultText.match` of an open brace,
any characters, a close brace): the match spans from the first open brace
to the last close brace, and fails when no close brace follows an open
brace. -/
def extractJson (cs : List Char) : Option (List Char) :=
  match firstIdxOf lbrace cs, lastIdxOf rbrace cs with
  | some i, some j => if i < j then some ((cs.drop i).take (j + 1 - i)) else none
  | _, _ => none

/-- `analyzeTranscriptWithAI` of ai-analyzer.ts.  First component: the
returned value (`none` is the null / unavailable result).  Second
component: whether a network request was attempted.  All throw sites of
the source are inside its try block and converge to `none`. -/
def analyzeTranscriptWithAI (apiKey : String) (net : NetResult)
    (jsParse : String → Option ParsedAnalysis) : Option AnalysisResult × Bool :=
  if apiKey = "" then (none, false)
  else
    match net with
    | NetResult.netErr _ => (none, true)
    | NetResult.reply rep =>
      if respOk rep.status then
        match rep.text? with
        | none => (none, true)
        | some body =>
          match extractJson body.data with
          | none => (none, true)
          | some js =>
            match jsParse (String.mk js) with
            | none => (none, true)
            | some a =>
              (some { managementSentiment :=
                        { score := max 0 (min 100 a.score),
                          label := a.label,
                          summary := a.summary },
                      keyThemes := (a.keyThemes.getD []).take 5,
                      overallTone := a.overallTone }, true)
      else (none, true)

/-- Trend result shape of `compareQuartersWithAI`. -/
structure TrendResult where
  trend : String
  insights : List String
deriving DecidableEq, Repr

/-- Fixed result for fewer than 2 quarters or a missing credential. -/
def notEnoughTrend : TrendResult :=
  { trend := ("stable"), insights := [("Not enough data for AI comparison")] }

/-- Fixed result for any failure of the remote comparison. -/
def unavailTrend : TrendResult :=
  { trend := ("stable"), insights := [("AI comparison unavailable")] }

/-- `compareQuartersWithAI` of ai-analyzer.ts.  Second component: whether
a network request was attempted.  A missing text field defaults to the
empty string (`|| base`), so it surfaces as a failed extraction. -/
def compareQuartersWithAI (apiKey : String) (transcripts : List (String × String))
    (net : NetResult) (trParse : String → Option TrendResult) : TrendResult × Bool :=
  if apiKey = "" ∨ transcripts.length < 2 then (notEnoughTrend, false)
  else
    match net with
    | NetResult.netErr _ => (unavailTrend, true)
    | NetResult.reply rep =>
      if respOk rep.status then
        match extractJson ((rep.text?.getD ("")).data) with
        | some js =>
          match trParse (String.mk js) with
          | some t => (t, true)
          | none => (unavailTrend, true)
        | none => (unavailTrend, true)
      else (unavailTrend, true)

/-! ## Analysis route (coordinator) -/

/-- The `POST` handler of the analysis API route, restricted to its
decision logic: reject an empty transcript, try the remote scorer only
when requested and a credential exists, fall back to the keyword analyzer,
and report the method that actually produced the result. -/
def POST (transcript : String) (useAI : Bool) (apiKey : String) (net : NetResult)
    (jsParse : String → Option ParsedAnalysis) : Except String (AnalysisResult × String) :=
  if transcript = "" then Except.error ("No transcript provided")
  else
    let remote : Option AnalysisResult :=
      if useAI then
        if apiKey = "" then none else (analyzeTranscriptWithAI apiKey net jsParse).1
      else none
    match remote with
    | some a => Except.ok (a, ("gemini-ai"))
    | none => Except.ok (analyzeTranscript transcript, ("keyword-analysis"))

/-- Spec-side definition for the refinement check of the extraction
contract: the first balanced brace-delimited substring, located with a
bracket-depth scanner as the spec words it (depth goes up at an open
brace, down at a close brace, and the span ends when it returns to zero). -/
def balClose : List Char → Nat → List Char → Option (List Char)
  | [], _, _ => none
  | c :: cs, d, acc =>
    if c = lbrace then balClose cs (d + 1) (c :: acc)
    else if c = rbrace then
      if d = 1 then some (c :: acc).reverse else balClose cs (d - 1) (c :: acc)
    else balClose cs d (c :: acc)

/-- Spec-side definition: first balanced brace-delimited object of a text. -/
def firstBalanced : List Char → Option (List Char)
  | [] => none
  | c :: cs => if c = lbrace then balClose cs 1 [c] else firstBalanced cs

/-- Label thresholds stated in the remote prompt template
(70–100 positive, 40–69 neutral, 0–39 negative). -/
def remoteLabelFor (sc : Int) : String :=
  if 70 ≤ sc then ("positive") else if 40 ≤ sc then ("neutral") else ("negative")

/-- A parse oracle that always fails, for concrete instantiations. -/
def noParse : String → Option ParsedAnalysis := fun _ => none

/-! ## Supporting lemmas -/

lemma labelFor_eq_positive (sc : Int) : labelFor sc = ("positive") ↔ 65 ≤ sc := by
  unfold labelFor
  split_ifs with h1 h2 <;> simp_all <;> try omega

lemma labelFor_eq_neutral (sc : Int) : labelFor sc = ("neutral") ↔ 35 ≤ sc ∧ sc < 65 := by
  unfold labelFor
  split_ifs with h1 h2 <;> simp_all <;> try omega

lemma labelFor_eq_negative (sc : Int) : labelFor sc = ("negative") ↔ sc < 35 := by
  unfold labelFor
  split_ifs with h1 h2 <;> simp_all <;> try omega

lemma toneFor_eq_confident (sc : Int) : toneFor sc = ("confident") ↔ 70 ≤ sc := by
  unfold toneFor
  split_ifs with h1 h2 <;> simp_all <;> try omega

lemma toneFor_eq_cautious (sc : Int) : toneFor sc = ("cautious") ↔ sc ≤ 30 := by
  unfold toneFor
  split_ifs with h1 h2 <;> simp_all <;> try omega

lemma toneFor_eq_mixed (sc : Int) : toneFor sc = ("mixed") ↔ 30 < sc ∧ sc < 70 := by
  unfold toneFor
  split_ifs with h1 h2 <;> simp_all <;> try omega

/-- `roundPct p n` is the round-half-up of `100 p / (p + n)`: it is the
unique `q` with `q ≤ 100 p / (p+n) + 1/2 < q + 1`, stated over ℕ by
clearing denominators. -/
lemma roundPct_bounds (p n : Nat) (h : 0 < p + n) :
    2 * (p + n) * roundPct p n ≤ 200 * p + (p + n) ∧
    200 * p + (p + n) < 2 * (p + n) * (roundPct p n + 1) := by
  unfold roundPct
  constructor
  · calc 2 * (p + n) * ((200 * p + (p + n)) / (2 * (p + n)))
        = (200 * p + (p + n)) / (2 * (p + n)) * (2 * (p + n)) := Nat.mul_comm _ _
      _ ≤ 200 * p + (p + n) := Nat.div_mul_le_self _ _
  · have h2 : 0 < 2 * (p + n) := by omega
    have h3 : 200 * p + (p + n) <
        ((200 * p + (p + n)) / (2 * (p + n)) + 1) * (2 * (p + n)) := by
      rw [← Nat.div_lt_iff_lt_mul h2]
      exact Nat.lt_succ_self _
    calc 200 * p + (p + n)
        < ((200 * p + (p + n)) / (2 * (p + n)) + 1) * (2 * (p + n)) := h3
      _ = 2 * (p + n) * ((200 * p + (p + n)) / (2 * (p + n)) + 1) := Nat.mul_comm _ _

/-- Filtering with a pointwise weaker predicate keeps at least as many
elements. -/
lemma filter_length_mono {α : Type} {p q : α → Bool} (l : List α)
    (h : ∀ a ∈ l, p a = true → q a = true) :
    (l.filter p).length ≤ (l.filter q).length := by
  induction l with
  | nil => simp
  | cons a l ih =>
    have ih' := ih (fun b hb hpb => h b (List.mem_cons_of_mem a hb) hpb)
    by_cases hp : p a = true
    · have hq := h a (List.mem_cons_self a l) hp
      simp [List.filter_cons, hp, hq]
      omega
    · simp only [List.filter_cons]
      rw [if_neg hp]
      by_cases hq : q a = true
      · rw [if_pos hq]
        simp only [List.length_cons]
        omega
      · rw [if_neg hq]
        exact ih'

lemma firstIdxOf_some {c : Char} :
    ∀ {cs : List Char} {i : Nat}, firstIdxOf c cs = some i →
      cs.get? i = some c ∧ ∀ k, k < i → cs.get? k ≠ some c := by
  intro cs
  induction cs with
  | nil => intro i h; simp [firstIdxOf] at h
  | cons x xs ih =>
    intro i h
    by_cases hx : x = c
    · simp [firstIdxOf, hx] at h
      subst h
      exact ⟨by simp [List.get?, hx], fun k hk => absurd hk (Nat.not_lt_zero k)⟩
    · simp [firstIdxOf, hx] at h
      obtain ⟨j, hj, rfl⟩ := h
      obtain ⟨h1, h2⟩ := ih hj
      refine ⟨by simpa [List.get?] using h1, ?_⟩
      intro k hk
      cases k with
      | zero => simp [List.get?, hx]
      | succ m => simpa [List.get?] using h2 m (by omega)

lemma firstIdxOf_none {c : Char} :
    ∀ {cs : List Char}, firstIdxOf c cs = none → ∀ k, cs.get? k ≠ some c := by
  intro cs
  induction cs with
  | nil => intro _ k; cases k <;> simp [List.get?]
  | cons x xs ih =>
    intro h k
    by_cases hx : x = c
    · simp [firstIdxOf, hx] at h
    · simp [firstIdxOf, hx] at h
      cases k with
      | zero => simp [List.get?, hx]
      | succ m => simpa [List.get?] using ih h m

lemma lastIdxOf_none {c : Char} :
    ∀ {cs : List Char}, lastIdxOf c cs = none → ∀ k, cs.get? k ≠ some c := by
  intro cs
  induction cs with
  | nil => intro _ k; cases k <;> simp [List.get?]
  | cons x xs ih =>
    intro h k
    unfold lastIdxOf at h
    cases hxs : lastIdxOf c xs with
    | some j => rw [hxs] at h; simp at h
    | none =>
      rw [hxs] at h
      by_cases hx : x = c
      · rw [if_pos hx] at h; simp at h
      · cases k with
        | zero => simp [List.get?, hx]
        | succ m => simpa [List.get?] using ih hxs m

lemma lastIdxOf_some {c : Char} :
    ∀ {cs : List Char} {j : Nat}, lastIdxOf c cs = some j →
      cs.get? j = some c ∧ ∀ k, j < k → cs.get? k ≠ some c := by
  intro cs
  induction cs with
  | nil => intro j h; simp [lastIdxOf] at h
  | cons x xs ih =>
    intro j h
    unfold lastIdxOf at h
    cases hxs : lastIdxOf c xs with
    | some j' =>
      rw [hxs] at h
      simp at h
      subst h
      obtain ⟨h1, h2⟩ := ih hxs
      refine ⟨by simpa [List.get?] using h1, ?_⟩
      intro k hk
      cases k with
      | zero => omega
      | succ m => simpa [List.get?] using h2 m (by omega)
    | none =>
      rw [hxs] at h
      by_cases hx : x = c
      · rw [if_pos hx] at h
        simp at h
        subst h
        refine ⟨by simp [List.get?, hx], ?_⟩
        intro k hk
        cases k with
        | zero => omega
        | succ m => simpa [List.get?] using lastIdxOf_none hxs m
      · rw [if_neg hx] at h; simp at h

/-! ## Claim theorems: LocalScorer -/

/-- C4: LocalScorer's sentiment score is 50 when the text has no
whole-word match against either sentiment list, and otherwise rounds
(half-up) the positive percentage `100 p / (p + n)`; when the text
contains a strong-positive phrase, 10 is added and the result capped into
[0,100]. -/
theorem localScore_formula (s : String) :
    (sentimentCount (lowerStr s) positiveWords + sentimentCount (lowerStr s) negativeWords = 0 →
      localBase (lowerStr s) = 50)
    ∧ (0 < sentimentCount (lowerStr s) positiveWords +
          sentimentCount (lowerStr s) negativeWords →
      2 * (sentimentCount (lowerStr s) positiveWords +
            sentimentCount (lowerStr s) negativeWords) * localBase (lowerStr s)
        ≤ 200 * sentimentCount (lowerStr s) positiveWords +
            (sentimentCount (lowerStr s) positiveWords +
              sentimentCount (lowerStr s) negativeWords)
      ∧ 200 * sentimentCount (lowerStr s) positiveWords +
            (sentimentCount (lowerStr s) positiveWords +
              sentimentCount (lowerStr s) negativeWords)
        < 2 * (sentimentCount (lowerStr s) positiveWords +
            sentimentCount (lowerStr s) negativeWords) * (localBase (lowerStr s) + 1))
    ∧ (analyzeTranscript s).managementSentiment.score =
        ((if hasBonusPhrase (lowerStr s) then min 100 (localBase (lowerStr s) + 10)
          else localBase (lowerStr s) : Nat) : Int) := by
  refine ⟨?_, ?_, rfl⟩
  · intro h
    unfold localBase
    rw [if_pos h]
  · intro h
    have hne : ¬(sentimentCount (lowerStr s) positiveWords +
        sentimentCount (lowerStr s) negativeWords = 0) := by omega
    unfold localBase
    rw [if_neg hne]
    exact roundPct_bounds _ _ h

/-- C4 witness: on the one-word transcript "growth" the positive count is
1, the negative count 0, and the base score satisfies the rounding
characterization. -/
theorem localScore_formula_w :
    2 * (sentimentCount (lowerStr ("growth")) positiveWords +
          sentimentCount (lowerStr ("growth")) negativeWords) * localBase (lowerStr ("growth"))
      ≤ 200 * sentimentCount (lowerStr ("growth")) positiveWords +
          (sentimentCount (lowerStr ("growth")) positiveWords +
            sentimentCount (lowerStr ("growth")) negativeWords)
    ∧ 200 * sentimentCount (lowerStr ("growth")) positiveWords +
          (sentimentCount (lowerStr ("growth")) positiveWords +
            sentimentCount (lowerStr ("growth")) negativeWords)
      < 2 * (sentimentCount (lowerStr ("growth")) positiveWords +
          sentimentCount (lowerStr ("growth")) negativeWords) *
          (localBase (lowerStr ("growth")) + 1) :=
  (localScore_formula ("growth")).2.1 (by decide)

/-- C5: every LocalScorer result carries a label obeying the 65/35
thresholds and a tone obeying the 70/30 thresholds of its score. -/
theorem localLabel_tone_thresholds (s : String) :
    ((analyzeTranscript s).managementSentiment.label = ("positive") ↔
      65 ≤ (analyzeTranscript s).managementSentiment.score)
    ∧ ((analyzeTranscript s).managementSentiment.label = ("neutral") ↔
      35 ≤ (analyzeTranscript s).managementSentiment.score ∧
        (analyzeTranscript s).managementSentiment.score < 65)
    ∧ ((analyzeTranscript s).managementSentiment.label = ("negative") ↔
      (analyzeTranscript s).managementSentiment.score < 35)
    ∧ ((analyzeTranscript s).overallTone = ("confident") ↔
      70 ≤ (analyzeTranscript s).managementSentiment.score)
    ∧ ((analyzeTranscript s).overallTone = ("cautious") ↔
      (analyzeTranscript s).managementSentiment.score ≤ 30)
    ∧ ((analyzeTranscript s).overallTone = ("mixed") ↔
      30 < (analyzeTranscript s).managementSentiment.score ∧
        (analyzeTranscript s).managementSentiment.score < 70) :=
  ⟨labelFor_eq_positive _, labelFor_eq_neutral _, labelFor_eq_negative _,
   toneFor_eq_confident _, toneFor_eq_cautious _, toneFor_eq_mixed _⟩

/-- C9: the theme list of every LocalScorer result has between 1 and 5
entries; it is a selection of the fixed theme table in table order, or
the single default theme. -/
theorem keyThemes_bounds (s : String) :
    1 ≤ (analyzeTranscript s).keyThemes.length ∧
    (analyzeTranscript s).keyThemes.length ≤ 5 ∧
    ((analyzeTranscript s).keyThemes.Sublist (themeTable.map Prod.fst) ∨
      (analyzeTranscript s).keyThemes = [defaultTheme]) := by
  have hk : (analyzeTranscript s).keyThemes = (detectThemes (lowerStr s)).take 5 := rfl
  have hdet : detectThemes (lowerStr s) =
      (if ((themeTable.filter
            (fun row => row.2.any (fun k => hasSub (lowerStr s) k.data))).map Prod.fst).isEmpty
       then [defaultTheme]
       else (themeTable.filter
            (fun row => row.2.any (fun k => hasSub (lowerStr s) k.data))).map Prod.fst) := rfl
  rw [hk, hdet]
  by_cases he : ((themeTable.filter
      (fun row => row.2.any (fun k => hasSub (lowerStr s) k.data))).map Prod.fst).isEmpty
  · rw [if_pos he]
    have ht : List.take 5 [defaultTheme] = [defaultTheme] :=
      List.take_of_length_le (by norm_num)
    rw [ht]
    exact ⟨by norm_num, by norm_num, Or.inr rfl⟩
  · rw [if_neg he]
    have hne : (themeTable.filter
        (fun row => row.2.any (fun k => hasSub (lowerStr s) k.data))).map Prod.fst ≠ [] :=
      fun hnil => he (by rw [hnil]; rfl)
    have hpos : 0 < ((themeTable.filter
        (fun row => row.2.any (fun k => hasSub (lowerStr s) k.data))).map Prod.fst).length :=
      List.length_pos.mpr hne
    refine ⟨?_, ?_, Or.inl ?_⟩
    · rw [List.length_take]
      exact le_min (by norm_num) hpos
    · rw [List.length_take]
      exact min_le_left _ _
    · exact (List.take_sublist _ _).trans
        (List.Sublist.map Prod.fst (List.filter_sublist _))

/-- C10: the Q&A score stays in [25, 75], is a multiple of 5, and the
[0,100] clamp never changes it. -/
theorem qaScore_range (s : String) :
    25 ≤ (analyzeQASection s).score ∧ (analyzeQASection s).score ≤ 75 ∧
    (5 : Int) ∣ (analyzeQASection s).score ∧
    (analyzeQASection s).score = qaRaw (lowerStr s) := by
  have hc := List.length_filter_le (fun w => hasSub (lowerStr s) w.data) confidentWords
  have hd := List.length_filter_le (fun w => hasSub (lowerStr s) w.data) defensiveWords
  have hc5 : confidentWords.length = 5 := rfl
  have hd5 : defensiveWords.length = 5 := rfl
  have hq : qaRaw (lowerStr s) =
      50 + 5 * ((confidentWords.filter (fun w => hasSub (lowerStr s) w.data)).length : Int)
         - 5 * ((defensiveWords.filter (fun w => hasSub (lowerStr s) w.data)).length : Int) := rfl
  have h25 : 25 ≤ qaRaw (lowerStr s) := by rw [hq]; omega
  have h75 : qaRaw (lowerStr s) ≤ 75 := by rw [hq]; omega
  have hs : (analyzeQASection s).score = max 0 (min 100 (qaRaw (lowerStr s))) := rfl
  have hclamp : max 0 (min 100 (qaRaw (lowerStr s))) = qaRaw (lowerStr s) := by
    rw [min_eq_right (le_trans h75 (by norm_num)), max_eq_right (le_trans (by norm_num) h25)]
  rw [hs, hclamp]
  refine ⟨h25, h75, ?_, rfl⟩
  rw [hq]
  omega

/-! ## Claim theorems: RemoteScorer and coordinator -/

/-- C3: every failure mode of the remote scorer — missing credential
(with no network attempt), network exception, non-success status, missing
text field, no brace-delimited span in the text, JSON parse failure —
returns the unavailable value; the model is a total function, so no
failure escapes the boundary. -/
theorem remoteScoreOne_failure_modes (apiKey : String) (net : NetResult)
    (jsParse : String → Option ParsedAnalysis) :
    (apiKey = "" → analyzeTranscriptWithAI apiKey net jsParse = (none, false))
    ∧ (∀ msg, net = NetResult.netErr msg → apiKey ≠ "" →
        analyzeTranscriptWithAI apiKey net jsParse = (none, true))
    ∧ (∀ rep, net = NetResult.reply rep → apiKey ≠ "" → respOk rep.status = false →
        analyzeTranscriptWithAI apiKey net jsParse = (none, true))
    ∧ (∀ rep, net = NetResult.reply rep → apiKey ≠ "" → respOk rep.status = true →
        rep.text? = none → analyzeTranscriptWithAI apiKey net jsParse = (none, true))
    ∧ (∀ rep body, net = NetResult.reply rep → apiKey ≠ "" → respOk rep.status = true →
        rep.text? = some body → extractJson body.data = none →
        analyzeTranscriptWithAI apiKey net jsParse = (none, true))
    ∧ (∀ rep body js, net = NetResult.reply rep → apiKey ≠ "" → respOk rep.status = true →
        rep.text? = some body → extractJson body.data = some js →
        jsParse (String.mk js) = none →
        analyzeTranscriptWithAI apiKey net jsParse = (none, true)) := by
  refine ⟨?_, ?_, ?_, ?_, ?_, ?_⟩
  · intro h
    simp [analyzeTranscriptWithAI, h]
  · intro msg hnet hkey
    subst hnet
    simp [analyzeTranscriptWithAI, hkey]
  · intro rep hnet hkey hko
    subst hnet
    simp [analyzeTranscriptWithAI, hkey, hko]
  · intro rep hnet hkey hok htxt
    subst hnet
    simp [analyzeTranscriptWithAI, hkey, hok, htxt]
  · intro rep body hnet hkey hok htxt hex
    subst hnet
    simp [analyzeTranscriptWithAI, hkey, hok, htxt, hex]
  · intro rep body js hnet hkey hok htxt hex hp
    subst hnet
    simp [analyzeTranscriptWithAI, hkey, hok, htxt, hex, hp]

/-- C3 witness: with no credential the call returns the unavailable value
and attempts no network access. -/
theorem remoteScoreOne_failure_modes_w :
    analyzeTranscriptWithAI ("") (NetResult.netErr ("boom")) noParse = (none, false) :=
  (remoteScoreOne_failure_modes ("") (NetResult.netErr ("boom")) noParse).1 rfl

/-- Provider reply used in the C1 counterexample: status 200 and a body
that is exactly one brace pair. -/
def c1Net : NetResult :=
  NetResult.reply { status := 200, text? := some (String.mk [lbrace, rbrace]) }

/-- Parse oracle used in the C1 counterexample: the provider answers with
score 10 but label "positive", an inconsistent pair. -/
def c1Parse : String → Option ParsedAnalysis := fun _ =>
  some { score := 10, label := ("positive"), summary := ("ok"),
         keyThemes := none, overallTone := ("mixed") }

/-- C1 counterexample: the remote scorer accepts a provider response whose
label/score pair (10, "positive") violates the threshold mapping of both
the local thresholds and the prompt thresholds — ingestion clamps only
the score, not the label. -/
theorem remote_label_inconsistent_cex :
    (analyzeTranscriptWithAI ("key") c1Net c1Parse).1 =
      some { managementSentiment := { score := 10, label := ("positive"), summary := ("ok") },
             keyThemes := [], overallTone := ("mixed") }
    ∧ labelFor 10 ≠ ("positive") ∧ remoteLabelFor 10 ≠ ("positive") := by
  refine ⟨by decide, by decide, by decide⟩

/-- C1 as amended: LocalScorer results always carry a label derived from
their score by the fixed thresholds, while remote-ingested results are
clamped only in their score, which always lands in [0,100]; the
provider's label is passed through unvalidated. -/
theorem remote_ingestion_clamps_score_only :
    (∀ s : String, (analyzeTranscript s).managementSentiment.label =
      labelFor (analyzeTranscript s).managementSentiment.score)
    ∧ (∀ (apiKey : String) (net : NetResult) (jsParse : String → Option ParsedAnalysis)
        (r : AnalysisResult), (analyzeTranscriptWithAI apiKey net jsParse).1 = some r →
        0 ≤ r.managementSentiment.score ∧ r.managementSentiment.score ≤ 100) := by
  constructor
  · intro s
    rfl
  · intro apiKey net jsParse r h
    by_cases hk : apiKey = ""
    · simp [analyzeTranscriptWithAI, hk] at h
    · cases net with
      | netErr msg => simp [analyzeTranscriptWithAI, hk] at h
      | reply rep =>
        by_cases hok : respOk rep.status = true
        · cases htxt : rep.text? with
          | none => simp [analyzeTranscriptWithAI, hk, hok, htxt] at h
          | some body =>
            cases hex : extractJson body.data with
            | none => simp [analyzeTranscriptWithAI, hk, hok, htxt, hex] at h
            | some js =>
              cases hp : jsParse (String.mk js) with
              | none => simp [analyzeTranscriptWithAI, hk, hok, htxt, hex, hp] at h
              | some a =>
                have h2 : (analyzeTranscriptWithAI apiKey (NetResult.reply rep) jsParse).1 =
                    some (AnalysisResult.mk
                      (SentimentAnalysis.mk (max 0 (min 100 a.score)) a.label a.summary)
                      ((a.keyThemes.getD []).take 5) a.overallTone) := by
                  simp [analyzeTranscriptWithAI, hk, hok, htxt, hex, hp]
                rw [h2] at h
                have h3 := Option.some.inj h
                subst h3
                exact ⟨le_max_left _ _, max_le (by norm_num) (min_le_left _ _)⟩
        · simp [analyzeTranscriptWithAI, hk, hok] at h

/-- C1 amended witness: a concrete accepted remote result has its score
inside [0,100]. -/
theorem remote_ingestion_clamps_score_only_w :
    0 ≤ (AnalysisResult.mk { score := 10, label := ("positive"), summary := ("ok") }
          [] ("mixed")).managementSentiment.score ∧
    (AnalysisResult.mk { score := 10, label := ("positive"), summary := ("ok") }
          [] ("mixed")).managementSentiment.score ≤ 100 :=
  remote_ingestion_clamps_score_only.2 ("key") c1Net c1Parse _ (by decide)

/-- C6 counterexample input: two brace-delimited objects in one text. -/
def c6Text : List Char := [lbrace, 'a', rbrace, ' ', lbrace, 'b', rbrace]

/-- C6 counterexample: on a text with two objects the greedy extraction
returns the whole span from the first open brace to the last close brace,
not the first balanced object. -/
theorem extractJson_not_first_balanced_cex :
    extractJson c6Text = some c6Text ∧
    firstBalanced c6Text = some [lbrace, 'a', rbrace] ∧
    extractJson c6Text ≠ firstBalanced c6Text := by
  refine ⟨by decide, by decide, by decide⟩

/-- C6 as amended: the extracted substring spans from the first open
brace of the text to its last close brace (the greedy match), and the
extraction fails — making the scorer return unavailable — exactly when no
close brace occurs after an open brace. -/
theorem extractJson_greedy_span (cs : List Char) :
    (∀ out, extractJson cs = some out →
      ∃ i j, i < j ∧ cs.get? i = some lbrace ∧ cs.get? j = some rbrace ∧
        (∀ k, k < i → cs.get? k ≠ some lbrace) ∧
        (∀ k, j < k → cs.get? k ≠ some rbrace) ∧
        out = (cs.drop i).take (j + 1 - i))
    ∧ (extractJson cs = none →
      ∀ i j, i < j → cs.get? i = some lbrace → cs.get? j ≠ some rbrace) := by
  constructor
  · intro out h
    cases hf : firstIdxOf lbrace cs with
    | none =>
      have hcomp : extractJson cs = none := by unfold extractJson; rw [hf]
      rw [hcomp] at h
      exact absurd h (by simp)
    | some i =>
      cases hl : lastIdxOf rbrace cs with
      | none =>
        have hcomp : extractJson cs = none := by unfold extractJson; rw [hf, hl]
        rw [hcomp] at h
        exact absurd h (by simp)
      | some j =>
        have hcomp : extractJson cs =
            if i < j then some ((cs.drop i).take (j + 1 - i)) else none := by
          unfold extractJson; rw [hf, hl]
        rw [hcomp] at h
        by_cases hij : i < j
        · rw [if_pos hij] at h
          obtain ⟨hf1, hf2⟩ := firstIdxOf_some hf
          obtain ⟨hl1, hl2⟩ := lastIdxOf_some hl
          exact ⟨i, j, hij, hf1, hl1, hf2, hl2, (Option.some.inj h).symm⟩
        · rw [if_neg hij] at h
          exact absurd h (by simp)
  · intro h i j hij hi hj
    cases hf : firstIdxOf lbrace cs with
    | none => exact firstIdxOf_none hf i hi
    | some i0 =>
      cases hl : lastIdxOf rbrace cs with
      | none => exact lastIdxOf_none hl j hj
      | some j0 =>
        have hcomp : extractJson cs =
            if i0 < j0 then some ((cs.drop i0).take (j0 + 1 - i0)) else none := by
          unfold extractJson; rw [hf, hl]
        rw [hcomp] at h
        by_cases hij0 : i0 < j0
        · rw [if_pos hij0] at h
          exact absurd h (by simp)
        · obtain ⟨hf1, hf2⟩ := firstIdxOf_some hf
          obtain ⟨hl1, hl2⟩ := lastIdxOf_some hl
          have hi0 : i0 ≤ i := by
            by_contra hc
            exact hf2 i (by omega) hi
          have hj0 : j ≤ j0 := by
            by_contra hc
            exact hl2 j (by omega) hj
          omega

/-- C6 amended witness: on the two-character text of one brace pair the
extraction succeeds and its span is characterized by the theorem. -/
theorem extractJson_greedy_span_w :
    ∃ i j, i < j ∧ ([lbrace, rbrace] : List Char).get? i = some lbrace ∧
      ([lbrace, rbrace] : List Char).get? j = some rbrace ∧
      (∀ k, k < i → ([lbrace, rbrace] : List Char).get? k ≠ some lbrace) ∧
      (∀ k, j < k → ([lbrace, rbrace] : List Char).get? k ≠ some rbrace) ∧
      ([lbrace, rbrace] : List Char) =
        (([lbrace, rbrace] : List Char).drop i).take (j + 1 - i) :=
  (extractJson_greedy_span [lbrace, rbrace]).1 [lbrace, rbrace] (by decide)

/-- C7: the trend comparison returns the fixed "Not enough data" result
without a network call when fewer than 2 quarters or no credential are
supplied, and the fixed "unavailable" result on every failure of the
remote call, the extraction or the parse. -/
theorem compareTrend_failure_modes (apiKey : String) (ts : List (String × String))
    (net : NetResult) (trParse : String → Option TrendResult) :
    ((apiKey = "" ∨ ts.length < 2) →
      compareQuartersWithAI apiKey ts net trParse = (notEnoughTrend, false))
    ∧ (∀ msg, net = NetResult.netErr msg → ¬(apiKey = "" ∨ ts.length < 2) →
      compareQuartersWithAI apiKey ts net trParse = (unavailTrend, true))
    ∧ (∀ rep, net = NetResult.reply rep → ¬(apiKey = "" ∨ ts.length < 2) →
      respOk rep.status = false →
      compareQuartersWithAI apiKey ts net trParse = (unavailTrend, true))
    ∧ (∀ rep, net = NetResult.reply rep → ¬(apiKey = "" ∨ ts.length < 2) →
      respOk rep.status = true → extractJson ((rep.text?.getD ("")).data) = none →
      compareQuartersWithAI apiKey ts net trParse = (unavailTrend, true))
    ∧ (∀ rep js, net = NetResult.reply rep → ¬(apiKey = "" ∨ ts.length < 2) →
      respOk rep.status = true → extractJson ((rep.text?.getD ("")).data) = some js →
      trParse (String.mk js) = none →
      compareQuartersWithAI apiKey ts net trParse = (unavailTrend, true)) := by
  refine ⟨?_, ?_, ?_, ?_, ?_⟩
  · intro h
    simp [compareQuartersWithAI, h]
  · intro msg hnet hg
    subst hnet
    simp [compareQuartersWithAI, hg]
  · intro rep hnet hg hko
    subst hnet
    simp [compareQuartersWithAI, hg, hko]
  · intro rep hnet hg hok hex
    subst hnet
    simp [compareQuartersWithAI, hg, hok, hex]
  · intro rep js hnet hg hok hex hp
    subst hnet
    simp [compareQuartersWithAI, hg, hok, hex, hp]

/-- C7 witness: with no credential and no quarters the fixed neutral
result is returned without a network attempt. -/
theorem compareTrend_failure_modes_w :
    compareQuartersWithAI ("") [] (NetResult.netErr ("x")) (fun _ => none) =
      (notEnoughTrend, false) :=
  (compareTrend_failure_modes ("") [] (NetResult.netErr ("x")) (fun _ => none)).1 (Or.inl rfl)

/-- C8: with AI requested and a remote attempt yielding unavailable, the
route returns exactly the local analyzer's result tagged
"keyword-analysis"; and every returned tag names the strategy that
actually produced the accompanying result. -/
theorem coordinator_fallback (t apiKey : String) (net : NetResult)
    (jsParse : String → Option ParsedAnalysis) :
    (t ≠ "" → (analyzeTranscriptWithAI apiKey net jsParse).1 = none →
      POST t true apiKey net jsParse =
        Except.ok (analyzeTranscript t, ("keyword-analysis")))
    ∧ (∀ r m, t ≠ "" → POST t true apiKey net jsParse = Except.ok (r, m) →
      (m = ("gemini-ai") ∧ (analyzeTranscriptWithAI apiKey net jsParse).1 = some r)
      ∨ (m = ("keyword-analysis") ∧ r = analyzeTranscript t)) := by
  constructor
  · intro ht hrem
    by_cases hk : apiKey = ""
    · simp [POST, ht, hk]
    · simp [POST, ht, hk, hrem]
  · intro r m ht hpost
    by_cases hk : apiKey = ""
    · simp [POST, ht, hk] at hpost
      exact Or.inr ⟨hpost.2.symm, hpost.1.symm⟩
    · cases hrem : (analyzeTranscriptWithAI apiKey net jsParse).1 with
      | none =>
        simp [POST, ht, hk, hrem] at hpost
        exact Or.inr ⟨hpost.2.symm, hpost.1.symm⟩
      | some a =>
        simp [POST, ht, hk, hrem] at hpost
        exact Or.inl ⟨hpost.2.symm, congrArg some hpost.1⟩

/-- C8 witness: a concrete failed remote attempt falls back to the local
result with the "keyword-analysis" tag. -/
theorem coordinator_fallback_w :
    POST ("x") true ("") (NetResult.netErr ("e")) noParse =
      Except.ok (analyzeTranscript ("x"), ("keyword-analysis")) :=
  (coordinator_fallback ("x") ("") (NetResult.netErr ("e")) noParse).1 (by decide) rfl

/-! ## Claim theorems: RateLimiter -/

/-- Inductive invariant of the limiter state after a release at time
`lastRel`: the recorded timestamps are nondecreasing, none exceeds the
last release time, and at most `maxRequests` of them lie inside the
trailing window ending at the last release. -/
def RLInv (st : List Nat) (lastRel : Nat) : Prop :=
  st.Pairwise (· ≤ ·) ∧ (∀ e ∈ st, e ≤ lastRel) ∧ countWindow st lastRel ≤ maxRequests

lemma inWindow_mono {r now e : Nat} (hrn : r ≤ now) (h : inWindow now e = true) :
    inWindow r e = true := by
  simp only [inWindow, decide_eq_true_eq] at h ⊢
  omega

lemma waitRelease_ge (kept : List Nat) (now : Nat) : now ≤ waitRelease kept now := by
  unfold waitRelease
  by_cases h : maxRequests ≤ kept.length
  · rw [if_pos h]
    cases kept with
    | nil => exact le_refl now
    | cons o t => exact le_max_left _ _
  · rw [if_neg h]

/-- Core step argument, on the already-filtered retained list. -/
lemma step_case (kept : List Nat) (now : Nat)
    (hksort : kept.Pairwise (· ≤ ·))
    (hkwin : ∀ e ∈ kept, inWindow now e = true)
    (hkbnd : ∀ e ∈ kept, e ≤ now)
    (hklen : kept.length ≤ maxRequests) :
    (kept ++ [now]).Pairwise (· ≤ ·) ∧
    (∀ e ∈ kept ++ [now], e ≤ waitRelease kept now) ∧
    countWindow (kept ++ [now]) (waitRelease kept now) ≤ maxRequests := by
  have hrel : now ≤ waitRelease kept now := waitRelease_ge kept now
  refine ⟨?_, ?_, ?_⟩
  · rw [List.pairwise_append]
    refine ⟨hksort, List.pairwise_singleton _ _, ?_⟩
    intro a ha b hb
    rw [List.mem_singleton] at hb
    subst hb
    exact hkbnd a ha
  · intro e he
    rw [List.mem_append] at he
    cases he with
    | inl h => exact le_trans (hkbnd e h) hrel
    | inr h =>
      rw [List.mem_singleton] at h
      subst h
      exact hrel
  · have h15 : maxRequests = 15 := rfl
    by_cases hge : maxRequests ≤ kept.length
    · have hlen : kept.length = maxRequests := le_antisymm hklen hge
      cases kept with
      | nil => exact absurd hlen (by decide)
      | cons oldest tl =>
        have hwin : inWindow now oldest = true := hkwin oldest (List.mem_cons_self _ _)
        have hlt : now < oldest + timeWindow := by
          simp only [inWindow, decide_eq_true_eq] at hwin
          omega
        have hwr : waitRelease (oldest :: tl) now = oldest + timeWindow := by
          unfold waitRelease
          rw [if_pos hge]
          exact max_eq_right (le_of_lt hlt)
        have hold : inWindow (oldest + timeWindow) oldest = false := by
          simp only [inWindow, decide_eq_false_iff_not]
          omega
        have htl : tl.length + 1 = maxRequests := by
          rw [List.length_cons] at hlen
          omega
        rw [hwr]
        unfold countWindow
        calc (((oldest :: tl) ++ [now]).filter
                (fun e => inWindow (oldest + timeWindow) e)).length
            = ((oldest :: (tl ++ [now])).filter
                (fun e => inWindow (oldest + timeWindow) e)).length := by
              rw [List.cons_append]
          _ = ((tl ++ [now]).filter (fun e => inWindow (oldest + timeWindow) e)).length := by
              rw [List.filter_cons]
              simp [hold]
          _ ≤ (tl ++ [now]).length := List.length_filter_le _ _
          _ = tl.length + 1 := by simp
          _ ≤ maxRequests := by omega
    · have hwr : waitRelease kept now = now := by
        unfold waitRelease
        rw [if_neg hge]
      rw [hwr]
      unfold countWindow
      rw [List.filter_append]
      rw [List.filter_eq_self.mpr hkwin]
      have hone : (List.filter (fun e => inWindow now e) [now]).length ≤ 1 :=
        le_trans (List.length_filter_le _ _) (by simp)
      rw [List.length_append]
      omega

/-- One `waitIfNeeded` call preserves the invariant and never releases
before its arrival. -/
lemma waitIfNeeded_step (st : List Nat) (r now : Nat)
    (hInv : RLInv st r) (hrn : r ≤ now) :
    RLInv (waitIfNeeded st now).2 (waitIfNeeded st now).1 ∧
    r ≤ (waitIfNeeded st now).1 := by
  obtain ⟨hsort, hbnd, hcnt⟩ := hInv
  have hsub : List.Sublist (st.filter (fun e => inWindow now e)) st :=
    List.filter_sublist st
  have hksort : (st.filter (fun e => inWindow now e)).Pairwise (· ≤ ·) :=
    List.Pairwise.sublist hsub hsort
  have hkwin : ∀ e ∈ st.filter (fun e => inWindow now e), inWindow now e = true :=
    fun e he => by simpa using (List.mem_filter.mp he).2
  have hkbnd : ∀ e ∈ st.filter (fun e => inWindow now e), e ≤ now :=
    fun e he => le_trans (hbnd e (List.mem_filter.mp he).1) hrn
  have hklen : (st.filter (fun e => inWindow now e)).length ≤ maxRequests :=
    le_trans (filter_length_mono st (fun a _ hp => inWindow_mono hrn hp)) hcnt
  have hmain := step_case (st.filter (fun e => inWindow now e)) now hksort hkwin hkbnd hklen
  exact ⟨⟨hmain.1, hmain.2.1, hmain.2.2⟩,
    le_trans hrn (waitRelease_ge (st.filter (fun e => inWindow now e)) now)⟩

/-- Along every sequential schedule the invariant count bound holds at
every release. -/
lemma rlTrace_inv : ∀ (arrivals st : List Nat) (r : Nat),
    RLInv st r → validSeqB st r arrivals = true →
    ∀ p ∈ rlTrace st arrivals, countWindow p.2 p.1 ≤ maxRequests := by
  intro arrivals
  induction arrivals with
  | nil =>
    intro st r _ _ p hp
    simp [rlTrace] at hp
  | cons now rest ih =>
    intro st r hInv hv p hp
    have hv' : (decide (r ≤ now) &&
        validSeqB (waitIfNeeded st now).2 (waitIfNeeded st now).1 rest) = true := hv
    rw [Bool.and_eq_true] at hv'
    obtain ⟨h1, h2⟩ := hv'
    have hrn : r ≤ now := of_decide_eq_true h1
    have step := waitIfNeeded_step st r now hInv hrn
    have hp' : p = waitIfNeeded st now ∨ p ∈ rlTrace (waitIfNeeded st now).2 rest := by
      simpa [rlTrace] using hp
    cases hp' with
    | inl h =>
      subst h
      exact step.1.2.2
    | inr h =>
      exact ih (waitIfNeeded st now).2 (waitIfNeeded st now).1 step.1 h2 p h

/-- C2: along every sequential schedule of `waitIfNeeded` calls, at the
moment any caller is released at most 15 recorded timestamps lie inside
the trailing 60000 ms window ending at that release; and 16 calls in
rapid succession at time 0 release the 16th caller exactly at 60000, that
is, no earlier than 60000 ms after the first call's timestamp. -/
theorem rateLimiter_window_bound :
    (∀ arrivals : List Nat, validSeqB [] 0 arrivals = true →
      ∀ p ∈ rlTrace [] arrivals, countWindow p.2 p.1 ≤ maxRequests)
    ∧ (rlTrace [] (List.replicate 16 0)).getLast?.map Prod.fst = some 60000 := by
  constructor
  · intro arrivals hv
    exact rlTrace_inv arrivals [] 0 ⟨List.Pairwise.nil, by simp, by simp [countWindow]⟩ hv
  · decide

/-- C2 witness: the schedule of one call at time 0 is sequential and its
release satisfies the window bound. -/
theorem rateLimiter_window_bound_w :
    countWindow (waitIfNeeded [] 0).2 (waitIfNeeded [] 0).1 ≤ maxRequests :=
  rateLimiter_window_bound.1 [0] (by decide) (waitIfNeeded [] 0) (by decide)

end Analyzer
